import Mathlib

/-
  Verification development for the JKL runtime core (resolver + interpreter).

  The resolver embedding (namespace Res) follows src/resolver.rs. The Rust
  scope stack is a Vec with the innermost scope LAST; the Lean list below
  keeps the innermost scope FIRST (head), so Vec push/pop become cons/tail
  and the innermost-to-outermost scan of resolve_local becomes a head-first
  scan whose index is exactly the Rust value `size - 1 - i`.

  Rust HashMaps are embedded as association lists with overwriting insert
  (`upsert`); key lookup is `List.lookup`.

  Rust panics are embedded as `Except.error`: in resolver.rs the
  `Result<_, String>` error channel is never populated (every failure is a
  panic), so a single error channel is faithful.
-/

/-- Overwriting insert for association lists, the embedding of HashMap insert. -/
def upsert {α β : Type} [BEq α] (k : α) (v : β) : List (α × β) → List (α × β)
  | [] => [(k, v)]
  | (k', v') :: rest => if k' == k then (k, v) :: rest else (k', v') :: upsert k v rest

theorem lookup_upsert_self {α β : Type} [BEq α] [LawfulBEq α] (k : α) (v : β) :
    ∀ l : List (α × β), List.lookup k (upsert k v l) = some v := by
  intro l
  induction l with
  | nil => simp [upsert, List.lookup]
  | cons p rest ih =>
    obtain ⟨k', v'⟩ := p
    by_cases h : k' = k
    · simp [upsert, h, List.lookup]
    · have hne : (k' == k) = false := by simp [h]
      have hne2 : (k == k') = false := by
        simp only [beq_eq_false_iff_ne, ne_eq]
        intro hh
        exact h hh.symm
      simp [upsert, hne, List.lookup, hne2, ih]

theorem lookup_upsert_other {α β : Type} [BEq α] [LawfulBEq α] (k k' : α) (v : β)
    (hne : k' ≠ k) : ∀ l : List (α × β), List.lookup k' (upsert k v l) = List.lookup k' l := by
  intro l
  induction l with
  | nil =>
    have : (k' == k) = false := by simp [hne]
    simp [upsert, List.lookup, this]
  | cons p rest ih =>
    obtain ⟨a, b⟩ := p
    by_cases h : a = k
    · subst h
      have h1 : (k' == a) = false := by simp [hne]
      simp [upsert, List.lookup, h1]
    · have h2 : (a == k) = false := by simp [h]
      by_cases h3 : k' = a
      · subst h3
        simp [upsert, h2, List.lookup]
      · have h4 : (k' == a) = false := by simp [h3]
        simp [upsert, h2, List.lookup, h4, ih]

namespace Res

/-- Scanner token; only the lexeme is consulted by the resolver (scanner.rs is
an external collaborator, see spec section 6). -/
structure Token where
  lexeme : String

/-- Function placement flag of the resolver, from src/resolver.rs. -/
inductive FunctionType where
  | None
  | Function
deriving DecidableEq

/-- Loop placement flag of the resolver, from src/resolver.rs. -/
inductive LoopType where
  | None
  | Loop
deriving DecidableEq

mutual

/-- Expression nodes, with the per-node ids and the fields the resolver
pattern-matches on (src/resolver.rs resolve_expr). -/
inductive Expr where
  | Variable : Nat → Token → Expr
  | Assign : Nat → Token → Expr → Expr
  | Array : Nat → List Expr → Expr
  | Binary : Nat → Expr → Token → Expr → Expr
  | Call : Nat → Expr → Token → List Expr → Expr
  | Get : Nat → Expr → Token → Expr
  | Grouping : Nat → Expr → Expr
  | Literal : Nat → Expr
  | Logical : Nat → Expr → Token → Expr → Expr
  | Set : Nat → Expr → Token → Expr → Expr
  | Unary : Nat → Token → Expr → Expr
  | AnonFunction : Nat → Token → List Token → List Stmt → Expr

/-- Statement forms matched by src/resolver.rs resolve_internal. -/
inductive Stmt where
  | Block : List Stmt → Stmt
  | Var : Token → Expr → Stmt
  | Function : Token → List Token → List Stmt → Stmt
  | CmdFunction : Token → String → Stmt
  | Expression : Expr → Stmt
  | IfStmt : Expr → Stmt → List (Expr × Stmt) → Option Stmt → Stmt
  | Print : Expr → Stmt
  | Errors : Expr → Stmt
  | Import : Expr → Stmt
  | Exits : Stmt
  | ReturnStmt : Token → Option Expr → Stmt
  | WhileStmt : Expr → Stmt → Stmt
  | WaitStmt : Expr → Stmt → Option (Expr × Stmt) → Stmt
  | BreakStmt : Token → Stmt
  | BenchStmt : Stmt → Stmt

end

/-- The stable per-node id (the Rust get_id method). -/
def get_id : Expr → Nat
  | .Variable id _ => id
  | .Assign id _ _ => id
  | .Array id _ => id
  | .Binary id _ _ _ => id
  | .Call id _ _ _ => id
  | .Get id _ _ => id
  | .Grouping id _ => id
  | .Literal id => id
  | .Logical id _ _ _ => id
  | .Set id _ _ _ => id
  | .Unary id _ _ => id
  | .AnonFunction id _ _ _ => id

/-- Resolver state, from src/resolver.rs. `scopes` keeps the innermost scope
first (see the header comment); each scope maps a name to the Rust bool
(false = declared, true = ready). -/
structure Resolver where
  scopes : List (List (String × Bool))
  current_function : FunctionType
  current_loop : LoopType
  locals : List (Nat × Nat)

def Resolver.new : Resolver := ⟨[], .None, .None, []⟩

def noFuelMsg : String := "resolver fuel exhausted"
def dupDeclMsg : String := "\n A variable with this name is already in scope"
def selfInitMsg : String := "\n  Cannot read local variable in its own initializer"
def returnOutsideMsg : String := "\n Return statement is not allowed outside of a function"
def breakOutsideMsg : String := "\n Break statement is not allowed outside of a loop"
def stackUnderflowMsg : String := "Stack underflow"
def wrongTypeMsg : String := "\n Wrong type"
def wrongTypeVarMsg : String := "\n Wrong type in resolve var"
def wrongTypeFnMsg : String := "\n Wrong type in resolve function"
def wrongTypeIfMsg : String := "\n Wrong type in resolve_if_stmt"
def wrongTypeVarRefMsg : String := "\n Wrong type in resolve_expr_var"
def wrongTypeAssignMsg : String := "\n Wrong type in resolve assign"

def begin_scope (r : Resolver) : Resolver :=
  {r with scopes := [] :: r.scopes}

def end_scope (r : Resolver) : Except String Resolver :=
  match r.scopes with
  | [] => .error stackUnderflowMsg
  | _ :: rest => .ok {r with scopes := rest}

/-- declare, from src/resolver.rs: no-op on an empty scope stack; error
(a Rust panic) when the innermost scope already has the key; otherwise
inserts name as declared (false). -/
def declare (r : Resolver) (name : Token) : Except String Resolver :=
  match r.scopes with
  | [] => .ok r
  | s :: rest =>
    if (List.lookup name.lexeme s).isSome then .error dupDeclMsg
    else .ok {r with scopes := upsert name.lexeme false s :: rest}

/-- define, from src/resolver.rs: flips the innermost entry to ready (true). -/
def define (r : Resolver) (name : Token) : Resolver :=
  match r.scopes with
  | [] => r
  | s :: rest => {r with scopes := upsert name.lexeme true s :: rest}

/-- Index, counted from the innermost scope, of the first scope containing
the name: the Rust loop of resolve_local, whose recorded value is
`size - 1 - i`. -/
def scopeIndex (nm : String) : List (List (String × Bool)) → Option Nat
  | [] => none
  | s :: rest =>
    if (List.lookup nm s).isSome then some 0
    else (scopeIndex nm rest).map (· + 1)

/-- resolve_local, from src/resolver.rs: record the number of scopes skipped
to the first scope containing the name; record nothing when absent. -/
def resolve_local (r : Resolver) (name : Token) (resolve_id : Nat) : Resolver :=
  match scopeIndex name.lexeme r.scopes with
  | some d => {r with locals := upsert resolve_id d r.locals}
  | none => r

/-- resolve_expr_var, from src/resolver.rs: a Variable read whose name sits
declared-but-not-ready in the innermost scope is fatal; otherwise fall
through to resolve_local. -/
def resolve_expr_var (r : Resolver) (expr : Expr) (resolve_id : Nat) : Except String Resolver :=
  match expr with
  | .Variable _ name =>
    match r.scopes with
    | inner :: _ =>
      match List.lookup name.lexeme inner with
      | some false => .error selfInitMsg
      | _ => .ok (resolve_local r name resolve_id)
    | [] => .ok (resolve_local r name resolve_id)
  | .Call _ callee _ _ =>
    match callee with
    | .Variable _ name => .ok (resolve_local r name resolve_id)
    | _ => .error wrongTypeVarRefMsg
  | _ => .error wrongTypeVarRefMsg

/-- Parameter declare+define loop of resolve_function_helper. -/
def declareParams : Resolver → List Token → Except String Resolver
  | r, [] => .ok r
  | r, p :: rest =>
    match declare r p with
    | .error e => .error e
    | .ok r1 => declareParams (define r1 p) rest

mutual

/-- resolve_internal, from src/resolver.rs (fuel makes the recursion
structural; every successful Rust run is reproduced at any large enough
fuel). -/
def resolve_internal : Nat → Resolver → Stmt → Except String Resolver
  | 0, _, _ => .error noFuelMsg
  | n + 1, r, stmt =>
    match stmt with
    | .Block _ => resolve_block n r stmt
    | .Var _ _ => resolve_var n r stmt
    | .Function _ _ _ => resolve_function n r stmt .Function
    | .CmdFunction _ _ => resolve_var n r stmt
    | .Expression e => resolve_expr n r e
    | .IfStmt _ _ _ _ => resolve_if_stmt n r stmt
    | .Print e => resolve_expr n r e
    | .Errors e => resolve_expr n r e
    | .Import e => resolve_expr n r e
    | .Exits => .ok r
    | .ReturnStmt _ value =>
      if r.current_function = FunctionType.None then .error returnOutsideMsg
      else
        match value with
        | some v => resolve_expr n r v
        | none => .ok r
    | .WhileStmt condition body =>
      match resolve_expr n r condition with
      | .error e => .error e
      | .ok r1 =>
        match resolve_internal n {r1 with current_loop := LoopType.Loop} body with
        | .error e => .error e
        | .ok r2 => .ok {r2 with current_loop := r1.current_loop}
    | .WaitStmt time body before =>
      match resolve_expr n r time with
      | .error e => .error e
      | .ok r1 =>
        match resolve_internal n r1 body with
        | .error e => .error e
        | .ok r2 =>
          match before with
          | none => .ok r2
          | some (bt, bb) =>
            match resolve_expr n r2 bt with
            | .error e => .error e
            | .ok r3 => resolve_internal n r3 bb
    | .BreakStmt _ =>
      if r.current_loop = LoopType.None then .error breakOutsideMsg else .ok r
    | .BenchStmt body => resolve_internal n r body

def resolve_many : Nat → Resolver → List Stmt → Except String Resolver
  | 0, _, _ => .error noFuelMsg
  | _ + 1, r, [] => .ok r
  | n + 1, r, s :: rest =>
    match resolve_internal n r s with
    | .error e => .error e
    | .ok r1 => resolve_many n r1 rest

def resolve_block : Nat → Resolver → Stmt → Except String Resolver
  | 0, _, _ => .error noFuelMsg
  | n + 1, r, stmt =>
    match stmt with
    | .Block statements =>
      match resolve_many n (begin_scope r) statements with
      | .error e => .error e
      | .ok r1 => end_scope r1
    | _ => .error wrongTypeMsg

def resolve_var : Nat → Resolver → Stmt → Except String Resolver
  | 0, _, _ => .error noFuelMsg
  | n + 1, r, stmt =>
    match stmt with
    | .Var name init0 =>
      match declare r name with
      | .error e => .error e
      | .ok r1 =>
        match resolve_expr n r1 init0 with
        | .error e => .error e
        | .ok r2 => .ok (define r2 name)
    | .CmdFunction name _ =>
      match declare r name with
      | .error e => .error e
      | .ok r1 => .ok (define r1 name)
    | _ => .error wrongTypeVarMsg

def resolve_function : Nat → Resolver → Stmt → FunctionType → Except String Resolver
  | 0, _, _, _ => .error noFuelMsg
  | n + 1, r, stmt, fn_type =>
    match stmt with
    | .Function name params body =>
      match declare r name with
      | .error e => .error e
      | .ok r1 => resolve_function_helper n (define r1 name) params body fn_type
    | _ => .error wrongTypeFnMsg

def resolve_if_stmt : Nat → Resolver → Stmt → Except String Resolver
  | 0, _, _ => .error noFuelMsg
  | n + 1, r, stmt =>
    match stmt with
    | .IfStmt predicate thn elif_branches els =>
      match resolve_expr n r predicate with
      | .error e => .error e
      | .ok r1 =>
        match resolve_internal n r1 thn with
        | .error e => .error e
        | .ok r2 =>
          match resolve_elifs n r2 elif_branches with
          | .error e => .error e
          | .ok r3 =>
            match els with
            | none => .ok r3
            | some e2 => resolve_internal n r3 e2
    | _ => .error wrongTypeIfMsg

def resolve_elifs : Nat → Resolver → List (Expr × Stmt) → Except String Resolver
  | 0, _, _ => .error noFuelMsg
  | _ + 1, r, [] => .ok r
  | n + 1, r, (pe, ps) :: rest =>
    match resolve_expr n r pe with
    | .error e => .error e
    | .ok r1 =>
      match resolve_internal n r1 ps with
      | .error e => .error e
      | .ok r2 => resolve_elifs n r2 rest

/-- resolve_function_helper, from src/resolver.rs: set the function flag,
open a scope, declare+define the parameters, resolve the body, close the
scope, restore the function flag. -/
def resolve_function_helper : Nat → Resolver → List Token → List Stmt → FunctionType → Except String Resolver
  | 0, _, _, _, _ => .error noFuelMsg
  | n + 1, r, params, body, resolving_function =>
    match declareParams (begin_scope {r with current_function := resolving_function}) params with
    | .error e => .error e
    | .ok r1 =>
      match resolve_many n r1 body with
      | .error e => .error e
      | .ok r2 =>
        match end_scope r2 with
        | .error e => .error e
        | .ok r3 => .ok {r3 with current_function := r.current_function}

def resolve_expr : Nat → Resolver → Expr → Except String Resolver
  | 0, _, _ => .error noFuelMsg
  | n + 1, r, expr =>
    match expr with
    | .Variable _ _ => resolve_expr_var r expr (get_id expr)
    | .Assign _ _ _ => resolve_expr_assign n r expr (get_id expr)
    | .Array _ elements => resolve_exprs n r elements
    | .Binary _ left _ right =>
      match resolve_expr n r left with
      | .error e => .error e
      | .ok r1 => resolve_expr n r1 right
    | .Call _ callee _ arguments =>
      match resolve_expr n r callee with
      | .error e => .error e
      | .ok r1 => resolve_exprs n r1 arguments
    | .Get _ object _ => resolve_expr n r object
    | .Grouping _ expression => resolve_expr n r expression
    | .Literal _ => .ok r
    | .Logical _ left _ right =>
      match resolve_expr n r left with
      | .error e => .error e
      | .ok r1 => resolve_expr n r1 right
    | .Set _ object _ value =>
      match resolve_expr n r value with
      | .error e => .error e
      | .ok r1 => resolve_expr n r1 object
    | .Unary _ _ right => resolve_expr n r right
    | .AnonFunction _ _ arguments body => resolve_function_helper n r arguments body .Function

def resolve_exprs : Nat → Resolver → List Expr → Except String Resolver
  | 0, _, _ => .error noFuelMsg
  | _ + 1, r, [] => .ok r
  | n + 1, r, e :: rest =>
    match resolve_expr n r e with
    | .error e' => .error e'
    | .ok r1 => resolve_exprs n r1 rest

def resolve_expr_assign : Nat → Resolver → Expr → Nat → Except String Resolver
  | 0, _, _, _ => .error noFuelMsg
  | n + 1, r, expr, resolve_id =>
    match expr with
    | .Assign _ name value =>
      match resolve_expr n r value with
      | .error e => .error e
      | .ok r1 => .ok (resolve_local r1 name resolve_id)
    | _ => .error wrongTypeAssignMsg

end

/-- The public resolve entry point: run the pass and surface the distance map. -/
def resolve (fuel : Nat) (r : Resolver) (stmts : List Stmt) : Except String (List (Nat × Nat)) :=
  match resolve_many fuel r stmts with
  | .error e => .error e
  | .ok r1 => .ok r1.locals

end Res

namespace Res

theorem getD_zero {α : Type} (a : α) (tl : List α) (d : α) : (a :: tl).getD 0 d = a := rfl

theorem getD_succ {α : Type} (a : α) (tl : List α) (j : Nat) (d : α) :
    (a :: tl).getD (j + 1) d = tl.getD j d := rfl

theorem getD_nil {α : Type} (j : Nat) (d : α) : ([] : List α).getD j d = d := by
  cases j <;> rfl

theorem getD_ge_length {α : Type} :
    ∀ (l : List α) (j : Nat) (d : α), l.length ≤ j → l.getD j d = d := by
  intro l
  induction l with
  | nil => intro j d _; exact getD_nil j d
  | cons a tl ih =>
    intro j d h
    cases j with
    | zero => simp at h
    | succ j' =>
      rw [getD_succ]
      exact ih j' d (by simpa using h)

theorem scopeIndex_unique (nm : String) :
    ∀ (l : List (List (String × Bool))) (d : Nat),
      (List.lookup nm (l.getD d [])).isSome = true →
      (∀ j, j ≠ d → List.lookup nm (l.getD j []) = none) →
      scopeIndex nm l = some d := by
  intro l
  induction l with
  | nil =>
    intro d hd _
    rw [getD_nil] at hd
    exact absurd hd (by simp [List.lookup])
  | cons a tl ih =>
    intro d hd hu
    cases ha : (List.lookup nm a).isSome with
    | true =>
      have hd0 : d = 0 := by
        by_contra hne
        have h0 := hu 0 (fun h => hne h.symm)
        rw [getD_zero] at h0
        rw [h0] at ha
        simp at ha
      subst hd0
      simp [scopeIndex, ha]
    | false =>
      have hdne : d ≠ 0 := by
        intro h
        subst h
        rw [getD_zero] at hd
        rw [hd] at ha
        simp at ha
      obtain ⟨d', rfl⟩ := Nat.exists_eq_succ_of_ne_zero hdne
      have hd' : (List.lookup nm (tl.getD d' [])).isSome = true := by
        rw [getD_succ] at hd
        exact hd
      have hu' : ∀ j, j ≠ d' → List.lookup nm (tl.getD j []) = none := by
        intro j hj
        have h1 := hu (j + 1) (by omega)
        rw [getD_succ] at h1
        exact h1
      simp [scopeIndex, ha, ih d' hd' hu']

theorem scopeIndex_none (nm : String) :
    ∀ l : List (List (String × Bool)),
      (∀ j, List.lookup nm (l.getD j []) = none) → scopeIndex nm l = none := by
  intro l
  induction l with
  | nil => intro _; simp [scopeIndex]
  | cons a tl ih =>
    intro h
    have h0 := h 0
    rw [getD_zero] at h0
    have htl : ∀ j, List.lookup nm (tl.getD j []) = none := by
      intro j
      have h1 := h (j + 1)
      rw [getD_succ] at h1
      exact h1
    simp [scopeIndex, h0, ih htl]

/-- C1: resolve_local records, for the reference node, the number of
scope boundaries strictly between the reference and its nearest enclosing
declaration, and records nothing when no scope in the stack contains the
name. The scope stack lists, innermost first, the open block and function
scopes enclosing the reference, so the scope at index d is separated from
the reference by exactly d boundaries; the no-shadowing hypothesis of the
claim is that exactly one scope contains the name. -/
theorem resolver_distance (r : Resolver) (name : Token) (id : Nat) :
    (∀ d : Nat,
      (List.lookup name.lexeme (r.scopes.getD d [])).isSome = true →
      (∀ j, j ≠ d → List.lookup name.lexeme (r.scopes.getD j []) = none) →
      List.lookup id (resolve_local r name id).locals = some d)
    ∧ ((∀ j, List.lookup name.lexeme (r.scopes.getD j []) = none) →
      resolve_local r name id = r) := by
  constructor
  · intro d hd hu
    unfold resolve_local
    rw [scopeIndex_unique name.lexeme r.scopes d hd hu]
    exact lookup_upsert_self id d r.locals
  · intro hnone
    unfold resolve_local
    rw [scopeIndex_none name.lexeme r.scopes hnone]

/-- Concrete stack used by the C1 witness: one declaration of x, two scopes
opened since (distance 2), and a name w held by no scope. -/
def c1Stack : Resolver :=
  ⟨[[("y", true)], [("z", true)], [("x", true)]], .None, .None, []⟩

/-- C1 witness: at a concrete three-scope stack, the recorded distance for x
is 2, and the absent name w records nothing. -/
theorem resolver_distance_witness :
    List.lookup 7 (resolve_local c1Stack ⟨"x"⟩ 7).locals = some 2
    ∧ resolve_local c1Stack ⟨"w"⟩ 9 = c1Stack := by
  constructor
  · exact (resolver_distance c1Stack ⟨"x"⟩ 7).1 2 (by decide)
      (by intro j hj
          match j with
          | 0 => decide
          | 1 => decide
          | 2 => exact absurd rfl hj
          | j + 3 => simp [c1Stack, List.getD])
  · exact (resolver_distance c1Stack ⟨"w"⟩ 9).2
      (by intro j
          match j with
          | 0 => decide
          | 1 => decide
          | 2 => decide
          | j + 3 => simp [c1Stack, List.getD])

/-- C6: declare is a no-op on an empty scope stack; otherwise it fails
exactly when the innermost scope already holds the name as a key, and on
success it inserts the name with the declared status (false) into the
innermost scope, leaving every other binding of that scope and all outer
scopes untouched, so a name held only by an outer scope (shadowing) is
accepted. -/
theorem declare_behavior (r : Resolver) (name : Token) :
    (r.scopes = [] → declare r name = .ok r)
    ∧ (∀ s rest, r.scopes = s :: rest →
      (((List.lookup name.lexeme s).isSome = true) → declare r name = .error dupDeclMsg)
      ∧ ((List.lookup name.lexeme s).isSome = false →
        declare r name = .ok {r with scopes := upsert name.lexeme false s :: rest}
        ∧ List.lookup name.lexeme (upsert name.lexeme false s) = some false
        ∧ ∀ k, k ≠ name.lexeme →
            List.lookup k (upsert name.lexeme false s) = List.lookup k s)) := by
  constructor
  · intro h
    unfold declare
    rw [h]
  · intro s rest h
    constructor
    · intro hsome
      unfold declare
      rw [h]
      simp [hsome]
    · intro hnone
      refine ⟨?_, lookup_upsert_self name.lexeme false s, ?_⟩
      · unfold declare
        rw [h]
        simp [hnone]
      · intro k hk
        exact lookup_upsert_other name.lexeme k false hk s

/-- C6 witness: with innermost scope holding x and the outer scope holding y,
redeclaring x fails, declaring y (a shadowing of the outer scope) succeeds,
and at an empty stack declare is a no-op. -/
theorem declare_behavior_witness :
    declare ⟨[[("x", true)], [("y", true)]], .None, .None, []⟩ ⟨"x"⟩ = .error dupDeclMsg
    ∧ declare ⟨[[("x", true)], [("y", true)]], .None, .None, []⟩ ⟨"y"⟩
        = .ok ⟨[[("x", true), ("y", false)], [("y", true)]], .None, .None, []⟩
    ∧ declare Resolver.new ⟨"x"⟩ = .ok Resolver.new := by
  refine ⟨?_, ?_, ?_⟩
  · exact ((declare_behavior ⟨[[("x", true)], [("y", true)]], .None, .None, []⟩ ⟨"x"⟩).2
      [("x", true)] [[("y", true)]] rfl).1 (by decide)
  · have h := (((declare_behavior ⟨[[("x", true)], [("y", true)]], .None, .None, []⟩ ⟨"y"⟩).2
      [("x", true)] [[("y", true)]] rfl).2 (by decide)).1
    rw [h]
    rfl
  · exact (declare_behavior Resolver.new ⟨"x"⟩).1 rfl

/-- The program of the C5 claim: var x = 1; { var x = x + 1; print x; }. -/
def c5Program : List Stmt :=
  [ .Var ⟨"x"⟩ (.Literal 0),
    .Block
      [ .Var ⟨"x"⟩ (.Binary 1 (.Variable 2 ⟨"x"⟩) ⟨"+"⟩ (.Literal 3)),
        .Print (.Variable 4 ⟨"x"⟩) ] ]

/-- C5: a Variable reference resolved while the scope stack is non-empty and
whose name is declared-but-not-ready (false) in the innermost scope fails
fatally, and the concrete program var x = 1; { var x = x + 1; print x; }
fails resolution with that fatal error, so it never produces a distance map
for execution. -/
theorem read_in_own_initializer :
    (∀ (r : Resolver) (id rid : Nat) (name : Token) (inner : List (String × Bool))
      (rest : List (List (String × Bool))),
      r.scopes = inner :: rest →
      List.lookup name.lexeme inner = some false →
      resolve_expr_var r (.Variable id name) rid = .error selfInitMsg)
    ∧ resolve 20 Resolver.new c5Program = .error selfInitMsg := by
  constructor
  · intro r id rid name inner rest h hlook
    obtain ⟨scopes0, cf, cl, lo⟩ := r
    simp only at h
    subst h
    simp only [resolve_expr_var, hlook]
  · rfl

/-- C5 witness: the general fatal case applied at a concrete one-scope stack. -/
theorem read_in_own_initializer_witness :
    resolve_expr_var ⟨[[("x", false)]], .None, .None, []⟩ (.Variable 5 ⟨"x"⟩) 5
      = .error selfInitMsg :=
  (read_in_own_initializer).1 ⟨[[("x", false)]], .None, .None, []⟩ 5 5 ⟨"x"⟩
    [("x", false)] [] rfl rfl

end Res

namespace Res

theorem declare_flags {r : Resolver} {name : Token} {r' : Resolver}
    (h : declare r name = .ok r') :
    r'.current_function = r.current_function ∧ r'.current_loop = r.current_loop := by
  obtain ⟨sc, cf, cl, lo⟩ := r
  cases sc with
  | nil =>
    simp [declare] at h
    rw [← h]
    exact ⟨rfl, rfl⟩
  | cons s rest =>
    by_cases hk : (List.lookup name.lexeme s).isSome = true
    · simp [declare, hk] at h
    · simp [declare, hk] at h
      rw [← h]
      exact ⟨rfl, rfl⟩

theorem define_flags (r : Resolver) (name : Token) :
    (define r name).current_function = r.current_function
    ∧ (define r name).current_loop = r.current_loop := by
  obtain ⟨sc, cf, cl, lo⟩ := r
  cases sc <;> exact ⟨rfl, rfl⟩

theorem end_scope_flags {r r' : Resolver} (h : end_scope r = .ok r') :
    r'.current_function = r.current_function ∧ r'.current_loop = r.current_loop := by
  obtain ⟨sc, cf, cl, lo⟩ := r
  cases sc with
  | nil => simp [end_scope] at h
  | cons s rest =>
    simp [end_scope] at h
    rw [← h]
    exact ⟨rfl, rfl⟩

theorem resolve_local_flags (r : Resolver) (name : Token) (rid : Nat) :
    (resolve_local r name rid).current_function = r.current_function
    ∧ (resolve_local r name rid).current_loop = r.current_loop := by
  unfold resolve_local
  cases scopeIndex name.lexeme r.scopes <;> exact ⟨rfl, rfl⟩

theorem resolve_expr_var_flags {r : Resolver} {e : Expr} {rid : Nat} {r' : Resolver}
    (h : resolve_expr_var r e rid = .ok r') :
    r'.current_function = r.current_function ∧ r'.current_loop = r.current_loop := by
  unfold resolve_expr_var at h
  cases e with
  | Variable id name =>
    cases hs : r.scopes with
    | nil =>
      rw [hs] at h
      simp at h
      rw [← h]
      exact resolve_local_flags r name rid
    | cons inner rest =>
      rw [hs] at h
      cases hl : List.lookup name.lexeme inner with
      | none =>
        simp [hl] at h
        rw [← h]
        exact resolve_local_flags r name rid
      | some b =>
        cases b with
        | false => simp [hl] at h
        | true =>
          simp [hl] at h
          rw [← h]
          exact resolve_local_flags r name rid
  | Call id callee paren args =>
    cases callee with
    | Variable id2 name =>
      simp at h
      rw [← h]
      exact resolve_local_flags r name rid
    | Assign a b c => simp at h
    | Array a b => simp at h
    | Binary a b c d => simp at h
    | Call a b c d => simp at h
    | Get a b c => simp at h
    | Grouping a b => simp at h
    | Literal a => simp at h
    | Logical a b c d => simp at h
    | Set a b c d => simp at h
    | Unary a b c => simp at h
    | AnonFunction a b c d => simp at h
  | Assign a b c => simp at h
  | Array a b => simp at h
  | Binary a b c d => simp at h
  | Get a b c => simp at h
  | Grouping a b => simp at h
  | Literal a => simp at h
  | Logical a b c d => simp at h
  | Set a b c d => simp at h
  | Unary a b c => simp at h
  | AnonFunction a b c d => simp at h

theorem declareParams_flags :
    ∀ (ps : List Token) (r r' : Resolver), declareParams r ps = .ok r' →
      r'.current_function = r.current_function ∧ r'.current_loop = r.current_loop := by
  intro ps
  induction ps with
  | nil =>
    intro r r' h
    simp [declareParams] at h
    rw [← h]
    exact ⟨rfl, rfl⟩
  | cons p rest ih =>
    intro r r' h
    simp only [declareParams] at h
    cases hd : declare r p with
    | error e => simp [hd] at h
    | ok r1 =>
      simp only [hd] at h
      have h1 := declare_flags hd
      have h2 := define_flags r1 p
      have h3 := ih (define r1 p) r' h
      exact ⟨h3.1.trans (h2.1.trans h1.1), h3.2.trans (h2.2.trans h1.2)⟩

end Res

namespace Res

/-- r' carries the same placement flags as r. -/
abbrev flagsPreserved (r r' : Resolver) : Prop :=
  r'.current_function = r.current_function ∧ r'.current_loop = r.current_loop

theorem resolver_flags :
    ∀ n : Nat,
      (∀ (r : Resolver) (stmt : Stmt) (r' : Resolver),
        resolve_internal n r stmt = .ok r' → flagsPreserved r r')
      ∧ (∀ r stmts r', resolve_many n r stmts = .ok r' → flagsPreserved r r')
      ∧ (∀ r stmt r', resolve_block n r stmt = .ok r' → flagsPreserved r r')
      ∧ (∀ r stmt r', resolve_var n r stmt = .ok r' → flagsPreserved r r')
      ∧ (∀ r stmt ft r', resolve_function n r stmt ft = .ok r' → flagsPreserved r r')
      ∧ (∀ r stmt r', resolve_if_stmt n r stmt = .ok r' → flagsPreserved r r')
      ∧ (∀ r bs r', resolve_elifs n r bs = .ok r' → flagsPreserved r r')
      ∧ (∀ r ps body ft r', resolve_function_helper n r ps body ft = .ok r' → flagsPreserved r r')
      ∧ (∀ r e r', resolve_expr n r e = .ok r' → flagsPreserved r r')
      ∧ (∀ r es r', resolve_exprs n r es = .ok r' → flagsPreserved r r')
      ∧ (∀ r e rid r', resolve_expr_assign n r e rid = .ok r' → flagsPreserved r r') := by
  intro n
  induction n with
  | zero =>
    refine ⟨?_, ?_, ?_, ?_, ?_, ?_, ?_, ?_, ?_, ?_, ?_⟩
    · intro r stmt r' h; simp [resolve_internal] at h
    · intro r stmts r' h; simp [resolve_many] at h
    · intro r stmt r' h; simp [resolve_block] at h
    · intro r stmt r' h; simp [resolve_var] at h
    · intro r stmt ft r' h; simp [resolve_function] at h
    · intro r stmt r' h; simp [resolve_if_stmt] at h
    · intro r bs r' h; simp [resolve_elifs] at h
    · intro r ps body ft r' h; simp [resolve_function_helper] at h
    · intro r e r' h; simp [resolve_expr] at h
    · intro r es r' h; simp [resolve_exprs] at h
    · intro r e rid r' h; simp [resolve_expr_assign] at h
  | succ n ih =>
    obtain ⟨ih_int, ih_many, ih_block, ih_var, ih_fn, ih_if, ih_elifs, ih_helper,
      ih_expr, ih_exprs, ih_assign⟩ := ih
    refine ⟨?_, ?_, ?_, ?_, ?_, ?_, ?_, ?_, ?_, ?_, ?_⟩
    · intro r stmt r' h
      cases stmt
      case Block ss =>
        simp only [resolve_internal] at h
        exact ih_block _ _ _ h
      case Var a b =>
        simp only [resolve_internal] at h
        exact ih_var _ _ _ h
      case Function a b c =>
        simp only [resolve_internal] at h
        exact ih_fn _ _ _ _ h
      case CmdFunction a b =>
        simp only [resolve_internal] at h
        exact ih_var _ _ _ h
      case Expression e =>
        simp only [resolve_internal] at h
        exact ih_expr _ _ _ h
      case IfStmt a b c d =>
        simp only [resolve_internal] at h
        exact ih_if _ _ _ h
      case Print e =>
        simp only [resolve_internal] at h
        exact ih_expr _ _ _ h
      case Errors e =>
        simp only [resolve_internal] at h
        exact ih_expr _ _ _ h
      case Import e =>
        simp only [resolve_internal] at h
        exact ih_expr _ _ _ h
      case Exits =>
        simp [resolve_internal] at h
        subst h
        exact ⟨rfl, rfl⟩
      case ReturnStmt kw value =>
        by_cases hf : r.current_function = FunctionType.None
        · simp [resolve_internal, hf] at h
        · cases value with
          | some v =>
            simp only [resolve_internal, if_neg hf] at h
            exact ih_expr _ _ _ h
          | none =>
            simp [resolve_internal, hf] at h
            subst h
            exact ⟨rfl, rfl⟩
      case WhileStmt c b =>
        simp only [resolve_internal] at h
        cases hc : resolve_expr n r c with
        | error e => simp [hc] at h
        | ok r1 =>
          simp only [hc] at h
          cases hb : resolve_internal n {r1 with current_loop := LoopType.Loop} b with
          | error e => simp [hb] at h
          | ok r2 =>
            simp only [hb] at h
            simp at h
            subst h
            have h1 := ih_expr _ _ _ hc
            have h2 := ih_int _ _ _ hb
            exact ⟨h2.1.trans h1.1, h1.2⟩
      case WaitStmt t b before =>
        simp only [resolve_internal] at h
        cases ht : resolve_expr n r t with
        | error e => simp [ht] at h
        | ok r1 =>
          simp only [ht] at h
          cases hb : resolve_internal n r1 b with
          | error e => simp [hb] at h
          | ok r2 =>
            simp only [hb] at h
            have h1 := ih_expr _ _ _ ht
            have h2 := ih_int _ _ _ hb
            cases before with
            | none =>
              simp at h
              subst h
              exact ⟨h2.1.trans h1.1, h2.2.trans h1.2⟩
            | some pair =>
              obtain ⟨bt, bb⟩ := pair
              simp only at h
              cases hbt : resolve_expr n r2 bt with
              | error e => simp [hbt] at h
              | ok r3 =>
                simp only [hbt] at h
                have h3 := ih_expr _ _ _ hbt
                have h4 := ih_int _ _ _ h
                exact ⟨h4.1.trans (h3.1.trans (h2.1.trans h1.1)),
                  h4.2.trans (h3.2.trans (h2.2.trans h1.2))⟩
      case BreakStmt kw =>
        by_cases hl : r.current_loop = LoopType.None
        · simp [resolve_internal, hl] at h
        · simp [resolve_internal, hl] at h
          subst h
          exact ⟨rfl, rfl⟩
      case BenchStmt b =>
        simp only [resolve_internal] at h
        exact ih_int _ _ _ h
    · intro r stmts r' h
      cases stmts with
      | nil =>
        simp [resolve_many] at h
        subst h
        exact ⟨rfl, rfl⟩
      | cons s rest =>
        simp only [resolve_many] at h
        cases hs : resolve_internal n r s with
        | error e => simp [hs] at h
        | ok r1 =>
          simp only [hs] at h
          have h1 := ih_int _ _ _ hs
          have h2 := ih_many _ _ _ h
          exact ⟨h2.1.trans h1.1, h2.2.trans h1.2⟩
    · intro r stmt r' h
      cases stmt
      case Block ss =>
        simp only [resolve_block] at h
        cases hm : resolve_many n (begin_scope r) ss with
        | error e => simp [hm] at h
        | ok r1 =>
          simp only [hm] at h
          have h1 := ih_many _ _ _ hm
          have h2 := end_scope_flags h
          exact ⟨h2.1.trans h1.1, h2.2.trans h1.2⟩
      all_goals simp [resolve_block] at h
    · intro r stmt r' h
      cases stmt
      case Var name init0 =>
        simp only [resolve_var] at h
        cases hd : declare r name with
        | error e => simp [hd] at h
        | ok r1 =>
          simp only [hd] at h
          cases he : resolve_expr n r1 init0 with
          | error e => simp [he] at h
          | ok r2 =>
            simp only [he] at h
            simp at h
            subst h
            have h1 := declare_flags hd
            have h2 := ih_expr _ _ _ he
            have h3 := define_flags r2 name
            exact ⟨h3.1.trans (h2.1.trans h1.1), h3.2.trans (h2.2.trans h1.2)⟩
      case CmdFunction name cmd =>
        simp only [resolve_var] at h
        cases hd : declare r name with
        | error e => simp [hd] at h
        | ok r1 =>
          simp only [hd] at h
          simp at h
          subst h
          have h1 := declare_flags hd
          have h3 := define_flags r1 name
          exact ⟨h3.1.trans h1.1, h3.2.trans h1.2⟩
      all_goals simp [resolve_var] at h
    · intro r stmt ft r' h
      cases stmt
      case Function name params body =>
        simp only [resolve_function] at h
        cases hd : declare r name with
        | error e => simp [hd] at h
        | ok r1 =>
          simp only [hd] at h
          have h1 := declare_flags hd
          have h2 := define_flags r1 name
          have h3 := ih_helper _ _ _ _ _ h
          exact ⟨h3.1.trans (h2.1.trans h1.1), h3.2.trans (h2.2.trans h1.2)⟩
      all_goals simp [resolve_function] at h
    · intro r stmt r' h
      cases stmt
      case IfStmt predicate thn elifs els =>
        simp only [resolve_if_stmt] at h
        cases hp : resolve_expr n r predicate with
        | error e => simp [hp] at h
        | ok r1 =>
          simp only [hp] at h
          cases ht : resolve_internal n r1 thn with
          | error e => simp [ht] at h
          | ok r2 =>
            simp only [ht] at h
            cases hel : resolve_elifs n r2 elifs with
            | error e => simp [hel] at h
            | ok r3 =>
              simp only [hel] at h
              have h1 := ih_expr _ _ _ hp
              have h2 := ih_int _ _ _ ht
              have h3 := ih_elifs _ _ _ hel
              cases els with
              | none =>
                simp at h
                subst h
                exact ⟨h3.1.trans (h2.1.trans h1.1), h3.2.trans (h2.2.trans h1.2)⟩
              | some e2 =>
                simp only at h
                have h4 := ih_int _ _ _ h
                exact ⟨h4.1.trans (h3.1.trans (h2.1.trans h1.1)),
                  h4.2.trans (h3.2.trans (h2.2.trans h1.2))⟩
      all_goals simp [resolve_if_stmt] at h
    · intro r bs r' h
      cases bs with
      | nil =>
        simp [resolve_elifs] at h
        subst h
        exact ⟨rfl, rfl⟩
      | cons pair rest =>
        obtain ⟨pe, ps⟩ := pair
        simp only [resolve_elifs] at h
        cases hp : resolve_expr n r pe with
        | error e => simp [hp] at h
        | ok r1 =>
          simp only [hp] at h
          cases hs : resolve_internal n r1 ps with
          | error e => simp [hs] at h
          | ok r2 =>
            simp only [hs] at h
            have h1 := ih_expr _ _ _ hp
            have h2 := ih_int _ _ _ hs
            have h3 := ih_elifs _ _ _ h
            exact ⟨h3.1.trans (h2.1.trans h1.1), h3.2.trans (h2.2.trans h1.2)⟩
    · intro r ps body ft r' h
      simp only [resolve_function_helper] at h
      cases hd : declareParams (begin_scope {r with current_function := ft}) ps with
      | error e => simp [hd] at h
      | ok r1 =>
        simp only [hd] at h
        cases hm : resolve_many n r1 body with
        | error e => simp [hm] at h
        | ok r2 =>
          simp only [hm] at h
          cases hes : end_scope r2 with
          | error e => simp [hes] at h
          | ok r3 =>
            simp only [hes] at h
            simp at h
            subst h
            refine ⟨rfl, ?_⟩
            have h1 := declareParams_flags _ _ _ hd
            have h2 := ih_many _ _ _ hm
            have h3 := end_scope_flags hes
            exact h3.2.trans (h2.2.trans h1.2)
    · intro r e r' h
      cases e
      case Variable id name =>
        simp only [resolve_expr] at h
        exact resolve_expr_var_flags h
      case Assign a b c =>
        simp only [resolve_expr] at h
        exact ih_assign _ _ _ _ h
      case Array a elements =>
        simp only [resolve_expr] at h
        exact ih_exprs _ _ _ h
      case Binary a left op right =>
        simp only [resolve_expr] at h
        cases hl : resolve_expr n r left with
        | error e2 => simp [hl] at h
        | ok r1 =>
          simp only [hl] at h
          have h1 := ih_expr _ _ _ hl
          have h2 := ih_expr _ _ _ h
          exact ⟨h2.1.trans h1.1, h2.2.trans h1.2⟩
      case Call a callee paren args =>
        simp only [resolve_expr] at h
        cases hl : resolve_expr n r callee with
        | error e2 => simp [hl] at h
        | ok r1 =>
          simp only [hl] at h
          have h1 := ih_expr _ _ _ hl
          have h2 := ih_exprs _ _ _ h
          exact ⟨h2.1.trans h1.1, h2.2.trans h1.2⟩
      case Get a obj nm =>
        simp only [resolve_expr] at h
        exact ih_expr _ _ _ h
      case Grouping a inner =>
        simp only [resolve_expr] at h
        exact ih_expr _ _ _ h
      case Literal a =>
        simp [resolve_expr] at h
        subst h
        exact ⟨rfl, rfl⟩
      case Logical a left op right =>
        simp only [resolve_expr] at h
        cases hl : resolve_expr n r left with
        | error e2 => simp [hl] at h
        | ok r1 =>
          simp only [hl] at h
          have h1 := ih_expr _ _ _ hl
          have h2 := ih_expr _ _ _ h
          exact ⟨h2.1.trans h1.1, h2.2.trans h1.2⟩
      case Set a obj nm value =>
        simp only [resolve_expr] at h
        cases hv : resolve_expr n r value with
        | error e2 => simp [hv] at h
        | ok r1 =>
          simp only [hv] at h
          have h1 := ih_expr _ _ _ hv
          have h2 := ih_expr _ _ _ h
          exact ⟨h2.1.trans h1.1, h2.2.trans h1.2⟩
      case Unary a op right =>
        simp only [resolve_expr] at h
        exact ih_expr _ _ _ h
      case AnonFunction a paren args body =>
        simp only [resolve_expr] at h
        exact ih_helper _ _ _ _ _ h
    · intro r es r' h
      cases es with
      | nil =>
        simp [resolve_exprs] at h
        subst h
        exact ⟨rfl, rfl⟩
      | cons e rest =>
        simp only [resolve_exprs] at h
        cases he : resolve_expr n r e with
        | error e2 => simp [he] at h
        | ok r1 =>
          simp only [he] at h
          have h1 := ih_expr _ _ _ he
          have h2 := ih_exprs _ _ _ h
          exact ⟨h2.1.trans h1.1, h2.2.trans h1.2⟩
    · intro r e rid r' h
      cases e
      case Assign a name value =>
        simp only [resolve_expr_assign] at h
        cases hv : resolve_expr n r value with
        | error e2 => simp [hv] at h
        | ok r1 =>
          simp only [hv] at h
          simp at h
          subst h
          have h1 := ih_expr _ _ _ hv
          have h2 := resolve_local_flags r1 name rid
          exact ⟨h2.1.trans h1.1, h2.2.trans h1.2⟩
      all_goals simp [resolve_expr_assign] at h

end Res

namespace Res

/-- The spec example for C7: a while loop, then a break outside any loop body. -/
def c7Program : List Stmt :=
  [ .WhileStmt (.Literal 0) (.Block []), .BreakStmt ⟨"break"⟩ ]

/-- C7: during the resolver pass a return statement is fatal when the
current-function flag is None and a break statement is fatal when the
current-loop flag is None; the while arm resolves its body with the loop
flag set and restores the value the flag had before the body, and
resolve_function_helper resolves a function body with the function flag set
and restores the previous value; every successful resolution leaves both
flags as they were, so the restores return them to their pre-body values;
and the concrete program with a break after (outside) the loop fails
resolution, producing no distance map for execution. -/
theorem return_break_placement :
    (∀ (n : Nat) (r : Resolver) (kw : Token) (v : Option Expr),
      r.current_function = FunctionType.None →
      resolve_internal (n + 1) r (.ReturnStmt kw v) = .error returnOutsideMsg)
    ∧ (∀ (n : Nat) (r : Resolver) (kw : Token),
      r.current_loop = LoopType.None →
      resolve_internal (n + 1) r (.BreakStmt kw) = .error breakOutsideMsg)
    ∧ (∀ (n : Nat) (r : Resolver) (c : Expr) (b : Stmt),
      resolve_internal (n + 1) r (.WhileStmt c b) =
        match resolve_expr n r c with
        | .error e => .error e
        | .ok r1 =>
          match resolve_internal n {r1 with current_loop := LoopType.Loop} b with
          | .error e => .error e
          | .ok r2 => .ok {r2 with current_loop := r1.current_loop})
    ∧ (∀ (n : Nat) (r : Resolver) (params : List Token) (body : List Stmt) (ft : FunctionType),
      resolve_function_helper (n + 1) r params body ft =
        match declareParams (begin_scope {r with current_function := ft}) params with
        | .error e => .error e
        | .ok r1 =>
          match resolve_many n r1 body with
          | .error e => .error e
          | .ok r2 =>
            match end_scope r2 with
            | .error e => .error e
            | .ok r3 => .ok {r3 with current_function := r.current_function})
    ∧ (∀ (n : Nat) (r : Resolver) (stmt : Stmt) (r' : Resolver),
      resolve_internal n r stmt = .ok r' →
      r'.current_function = r.current_function ∧ r'.current_loop = r.current_loop)
    ∧ resolve 20 Resolver.new c7Program = .error breakOutsideMsg := by
  refine ⟨?_, ?_, ?_, ?_, ?_, ?_⟩
  · intro n r kw v hf
    simp [resolve_internal, hf]
  · intro n r kw hl
    simp [resolve_internal, hl]
  · intro n r c b
    rfl
  · intro n r params body ft
    rfl
  · intro n r stmt r' h
    exact (resolver_flags n).1 r stmt r' h
  · rfl

/-- C7 witness: fresh-resolver instances of the fatal return, the fatal
break, and the flag preservation of a successfully resolved statement. -/
theorem return_break_placement_witness :
    resolve_internal 1 Resolver.new (.ReturnStmt ⟨"return"⟩ none) = .error returnOutsideMsg
    ∧ resolve_internal 1 Resolver.new (.BreakStmt ⟨"break"⟩) = .error breakOutsideMsg
    ∧ (Resolver.new.current_function = Resolver.new.current_function
      ∧ Resolver.new.current_loop = Resolver.new.current_loop) :=
  ⟨return_break_placement.1 0 Resolver.new ⟨"return"⟩ none rfl,
   return_break_placement.2.1 0 Resolver.new ⟨"break"⟩ rfl,
   return_break_placement.2.2.2.2.1 1 Resolver.new .Exits Resolver.new rfl⟩

end Res

namespace Interp

/-
  Embedding of src/interpreter.rs. The statement type below has exactly the
  arms the interpreter matches on (stmt.rs is not among the sources; the
  resolver file matches a different, larger shape, so each embedding follows
  its own file).

  Modelled from the spec: the environment chain (environment.rs is not among
  the sources). Spec section 4.1: environments are shared mutable frames
  reached through reference-counted handles, and cloning a handle observes
  and mutates the same storage. The model is a store (list) of frames
  addressed by index; a handle is the index, so cloning a handle is copying
  the index and sharing is automatic. enclose appends a fresh empty frame
  whose enclosing link is the current handle.
-/

mutual

/-- Runtime values (the LiteralValue interface of the value system, spec
section 6; expr.rs is not among the sources). -/
inductive LiteralValue where
  | Nil : LiteralValue
  | True : LiteralValue
  | False : LiteralValue
  | Number : Int → LiteralValue
  | StringValue : String → LiteralValue
  | ArrayValue : List LiteralValue → LiteralValue
  | Callable : CallableImpl → LiteralValue
  | JekoClass : String → List (String × JekoFunctionImpl) → Option LiteralValue → LiteralValue

/-- The two callable variants. Host closures of native functions are
defunctionalized: the only native built inside src/interpreter.rs is the
command runner of the CmdFunction arm, represented by its captured command
string and interpreted by invokeNative. -/
inductive CallableImpl where
  | JekoFunction : JekoFunctionImpl → CallableImpl
  | NativeFunction : String → Nat → NativeFn → CallableImpl

inductive NativeFn where
  | cmdRunner : String → NativeFn

/-- User function value: name, arity, captured parent environment handle,
parameters, body (the JekoFunctionImpl built by make_function). -/
inductive JekoFunctionImpl where
  | mk : String → Nat → Nat → List String → List Stmt → JekoFunctionImpl

/-- Modelled from the spec: expression evaluation (expr.rs is not among the
sources). Only the interface behavior the statement claims rely on is
modelled: evaluation yields a value or fails with a message, and it does
not change the environment chain. Literals evaluate to their value;
variables use the by-name fallback lookup of spec section 4.1, failing with
an UnboundVariable condition. -/
inductive Expr where
  | Literal : LiteralValue → Expr
  | Variable : String → Expr

/-- Statement forms matched by src/interpreter.rs interpret. Token-typed
names are embedded as their lexeme string, the only field the interpreter
reads. -/
inductive Stmt where
  | Expression : Expr → Stmt
  | Print : Expr → Stmt
  | Input : Expr → Stmt
  | Errors : Expr → Stmt
  | Var : String → Expr → Stmt
  | Block : List Stmt → Stmt
  | Class : String → List Stmt → Option Expr → Stmt
  | IfStmt : Expr → Stmt → Option Stmt → Stmt
  | IfShortStmt : Expr → Stmt → Option Stmt → Stmt
  | WhileStmt : Expr → Stmt → Stmt
  | Function : String → List String → List Stmt → Stmt
  | CmdFunction : String → String → Stmt
  | ReturnStmt : Option Expr → Stmt

end

/-- One environment frame: bindings plus the enclosing link (spec 4.1). -/
structure Frame where
  bindings : List (String × LiteralValue)
  enclosing : Option Nat

/-- The shared heap of frames; an environment handle is an index into it. -/
abbrev Store := List Frame

def emptyFrame : Frame := ⟨[], none⟩

def getFrame (st : Store) (i : Nat) : Frame := st.getD i emptyFrame

def setFrame (st : Store) (i : Nat) (f : Frame) : Store := st.set i f

/-- Modelled from the spec: define inserts or overwrites in the current
frame only (spec 4.1). -/
def defineE (st : Store) (e : Nat) (n : String) (v : LiteralValue) : Store :=
  setFrame st e {getFrame st e with bindings := upsert n v (getFrame st e).bindings}

/-- Modelled from the spec: enclose produces a new scope whose enclosing
link points at the current one (spec 4.1). -/
def enclose (st : Store) (e : Nat) : Store × Nat :=
  (st ++ [⟨[], some e⟩], st.length)

/-- Modelled from the spec: by-name fallback lookup walking the chain from
innermost to outermost (spec 4.1 get). Fuel bounds the chain walk. -/
def getE : Nat → Store → Nat → String → Option LiteralValue
  | 0, _, _, _ => none
  | fu + 1, st, e, n =>
    match List.lookup n (getFrame st e).bindings with
    | some v => some v
    | none =>
      match (getFrame st e).enclosing with
      | some p => getE fu st p n
      | none => none

/-- Handle of the outermost (global) frame reached from e. -/
def globalOf : Nat → Store → Nat → Option Nat
  | 0, _, _ => none
  | fu + 1, st, e =>
    match (getFrame st e).enclosing with
    | none => some e
    | some p => globalOf fu st p

/-- Modelled from the spec: assign_global overwrites a binding only in the
outermost scope and reports failure when the global scope does not already
contain the name (spec 4.1). -/
def assign_global (st : Store) (e : Nat) (n : String) (v : LiteralValue) : Option Store :=
  match globalOf (st.length + 1) st e with
  | none => none
  | some g =>
    if (List.lookup n (getFrame st g).bindings).isSome then some (defineE st g n v)
    else none

def evaluate (ex : Expr) (st : Store) (env : Nat) : Except String LiteralValue :=
  match ex with
  | .Literal v => .ok v
  | .Variable n =>
    match getE (st.length + 1) st env n with
    | some v => .ok v
    | none => .error ("Variable " ++ n ++ " has not been declared")

/-- Modelled from the spec: the value-system truthiness with the True/False
sentinels (spec section 6); nil and false are falsy. -/
def is_truthy : LiteralValue → LiteralValue
  | .Nil => .False
  | .False => .False
  | _ => .True

/-- Modelled from the spec: the value-system to_type operation naming the
runtime type of a value (spec section 6). -/
def to_type : LiteralValue → String
  | .Nil => "Nil"
  | .True => "Boolean"
  | .False => "Boolean"
  | .Number _ => "Number"
  | .StringValue _ => "String"
  | .ArrayValue _ => "Array"
  | .Callable _ => "Function"
  | .JekoClass _ _ _ => "Class"

/-- The Rust comparison `is_truthy() == LiteralValue::True` used by the
if/while arms. -/
def isTruthyTrue (v : LiteralValue) : Bool :=
  match is_truthy v with
  | .True => true
  | _ => false

/-- The Rust check `if let LiteralValue::JekoClass {..}` of the Class arm. -/
def isClassV : LiteralValue → Bool
  | .JekoClass _ _ _ => true
  | _ => false

/-- Modelled from the colored crate (external library): red() wraps the text
in ANSI color codes. -/
def red (s : String) : String := "\x1b[31m" ++ s ++ "\x1b[0m"

/-- The Rust part.replace of the CmdFunction closure: removes every
double-quote character from a token. -/
def removeQuotes (s : String) : String :=
  String.mk (s.toList.filter (fun c => c ≠ '\"'))

/-- The Rust cmd.split(" ") of the CmdFunction closure: split at every
single space character, keeping empty segments; the empty command yields
one empty segment, as in Rust. -/
def splitOnSpace : List Char → List (List Char)
  | [] => [[]]
  | c :: rest =>
    match splitOnSpace rest with
    | [] => [[]]
    | seg :: segs => if c = ' ' then [] :: seg :: segs else (c :: seg) :: segs

def cmdSplit (cmd : String) : List String :=
  (splitOnSpace cmd.toList).map String.mk

/-- The body of the CmdFunction native closure (src/interpreter.rs): split
the stored command on single spaces, strip quote characters from every
token, use the first token as the program and the rest as its arguments,
and return captured standard output decoded as a string value. The
operating system is an oracle from program and arguments to the captured,
decoded standard output; none models a failed spawn, which the Rust code
treats as fatal (expect). -/
def runCmdNative (os : String → List String → Option String) (cmd : String) :
    Option LiteralValue :=
  let parts := cmdSplit cmd
  let prog := removeQuotes (parts.headD "")
  let args := (parts.drop 1).map removeQuotes
  match os prog args with
  | some out => some (.StringValue out)
  | none => none

/-- Invocation of a native callable; the command runner ignores its
argument list (the Rust closure discards _args). -/
def invokeNative (os : String → List String → Option String) (f : NativeFn)
    (_args : List LiteralValue) : Option LiteralValue :=
  match f with
  | .cmdRunner cmd => runCmdNative os cmd

/-- make_function, from src/interpreter.rs: capture the current environment
handle by shared reference together with params and body. -/
def make_function (envH : Nat) (fn_stmt : Stmt) : Option JekoFunctionImpl :=
  match fn_stmt with
  | .Function name params body => some (.mk name params.length envH params body)
  | _ => none

/-- The methods loop of the Class arm: every member must be a Function
statement; each is turned into a function value capturing the method scope
and inserted into the method table. none embeds the Rust panic on a
non-function member. -/
def buildMethods (envH : Nat) : List Stmt → List (String × JekoFunctionImpl) →
    Option (List (String × JekoFunctionImpl))
  | [], acc => some acc
  | m :: rest, acc =>
    match m with
    | .Function name _ _ =>
      match make_function envH m with
      | some f => buildMethods envH rest (upsert name f acc)
      | none => none
    | _ => none

/-- Interpreter state, from src/interpreter.rs, plus the modelled frame heap
standing for the Rc-shared environments. -/
structure Interpreter where
  specials : List (String × LiteralValue)
  environment : Nat
  store : Store

/-- Outcome of executing a statement list: normal completion, a propagated
user-level error string together with the interpreter state at the moment
of the early return, process exit (the Errors statement), a panic, or fuel
exhaustion (a run still in progress). -/
inductive RunResult where
  | ok : Interpreter → RunResult
  | err : String → Interpreter → RunResult
  | exited : Nat → RunResult
  | fatal : String → RunResult
  | noFuel : RunResult

def nonFunctionMemberMsg : String :=
  "Something that was not a function was in the methods of a class"
def makeFnPanicMsg : String := "Tried to make a function from a non-function statement"
def unwrapEnclosingMsg : String := "called unwrap on a None enclosing environment"

/-- The tail of the Class arm after the superclass check (src/interpreter.rs
lines 99-129): pre-bind the class name to Nil in the current scope, open the
method scope, bind super there when a superclass exists, build the method
table, construct the class value, overwrite the placeholder in the global
scope (a distinct error when that fails, returned while the method scope is
still current), then restore the enclosing scope and continue. -/
def classCont (recurse : Interpreter → List Stmt → RunResult) (s : Interpreter)
    (name : String) (methods : List Stmt) (superclass_value : Option LiteralValue)
    (rest : List Stmt) : RunResult :=
  let st1 := defineE s.store s.environment name .Nil
  let p := enclose st1 s.environment
  let mEnv := p.2
  let st3 :=
    match superclass_value with
    | some sc => defineE p.1 mEnv "super" sc
    | none => p.1
  match buildMethods mEnv methods [] with
  | none => .fatal nonFunctionMemberMsg
  | some methods_map =>
    let klass := LiteralValue.JekoClass name methods_map superclass_value
    match assign_global st3 mEnv name klass with
    | none => .err (red ("Class definition failed for " ++ name)) ⟨s.specials, mEnv, st3⟩
    | some st4 =>
      match (getFrame st4 mEnv).enclosing with
      | none => .fatal unwrapEnclosingMsg
      | some parent => recurse ⟨s.specials, parent, st4⟩ rest

/-- interpret, from src/interpreter.rs: execute the statements in order
against the current environment (fuel makes the recursion structural; a
terminating Rust run is reproduced at any large enough fuel). Standard
output and standard input are process-level side effects outside the model;
the Input line is read and discarded by the Rust code. -/
def interpret : Nat → Interpreter → List Stmt → RunResult
  | _, s, [] => .ok s
  | 0, _, _ :: _ => .noFuel
  | n + 1, s, stmt :: rest =>
    match stmt with
    | .Expression e =>
      match evaluate e s.store s.environment with
      | .ok _ => interpret n s rest
      | .error m => .err m s
    | .Print e =>
      match evaluate e s.store s.environment with
      | .ok _ => interpret n s rest
      | .error m => .err m s
    | .Input e =>
      match evaluate e s.store s.environment with
      | .ok _ => interpret n s rest
      | .error m => .err m s
    | .Errors e =>
      match evaluate e s.store s.environment with
      | .ok _ => .exited 1
      | .error m => .err m s
    | .Var name init0 =>
      match evaluate init0 s.store s.environment with
      | .ok v => interpret n ⟨s.specials, s.environment, defineE s.store s.environment name v⟩ rest
      | .error m => .err m s
    | .Block statements =>
      let p := enclose s.store s.environment
      match interpret n ⟨s.specials, p.2, p.1⟩ statements with
      | .ok t => interpret n ⟨t.specials, s.environment, t.store⟩ rest
      | .err m t => .err m ⟨t.specials, s.environment, t.store⟩
      | other => other
    | .Class name methods superclass =>
      match superclass with
      | some sce =>
        match evaluate sce s.store s.environment with
        | .error m => .err m s
        | .ok v =>
          if isClassV v then classCont (interpret n) s name methods (some v) rest
          else .err (red ("Superclass must be a class, not " ++ to_type v)) s
      | none => classCont (interpret n) s name methods none rest
    | .IfStmt predicate thn els =>
      match evaluate predicate s.store s.environment with
      | .error m => .err m s
      | .ok tv =>
        if isTruthyTrue tv then
          match interpret n s [thn] with
          | .ok t => interpret n t rest
          | other => other
        else
          match els with
          | some e2 =>
            match interpret n s [e2] with
            | .ok t => interpret n t rest
            | other => other
          | none => interpret n s rest
    | .IfShortStmt predicate thn els =>
      match evaluate predicate s.store s.environment with
      | .error m => .err m s
      | .ok tv =>
        if isTruthyTrue tv then
          match interpret n s [thn] with
          | .ok t => interpret n t rest
          | other => other
        else
          match els with
          | some e2 =>
            match interpret n s [e2] with
            | .ok t => interpret n t rest
            | other => other
          | none => interpret n s rest
    | .WhileStmt condition body =>
      match evaluate condition s.store s.environment with
      | .error m => .err m s
      | .ok flag =>
        if isTruthyTrue flag then
          match interpret n s [body] with
          | .ok t => interpret n t (.WhileStmt condition body :: rest)
          | other => other
        else interpret n s rest
    | .Function name params body =>
      match make_function s.environment (.Function name params body) with
      | some f =>
        interpret n ⟨s.specials, s.environment,
          defineE s.store s.environment name (.Callable (.JekoFunction f))⟩ rest
      | none => .fatal makeFnPanicMsg
    | .CmdFunction name cmd =>
      interpret n ⟨s.specials, s.environment,
        defineE s.store s.environment name
          (.Callable (.NativeFunction name 0 (.cmdRunner cmd)))⟩ rest
    | .ReturnStmt value =>
      match value with
      | some e =>
        match evaluate e s.store s.environment with
        | .ok v => interpret n ⟨upsert "return" v s.specials, s.environment, s.store⟩ rest
        | .error m => .err m s
      | none => interpret n ⟨upsert "return" LiteralValue.Nil s.specials, s.environment, s.store⟩ rest

/-- Interpreter::new, from src/interpreter.rs: empty specials and a single
empty global environment. -/
def Interpreter.new : Interpreter := ⟨[], 0, [emptyFrame]⟩

end Interp

namespace Interp

theorem getFrame_set : ∀ (st : Store) (i j : Nat) (f : Frame),
    getFrame (setFrame st i f) j = if i = j ∧ i < st.length then f else getFrame st j := by
  intro st
  induction st with
  | nil =>
    intro i j f
    have hneg : ¬(i = j ∧ i < ([] : Store).length) := by simp
    rw [if_neg hneg]
    rfl
  | cons a tl ih =>
    intro i j f
    cases i with
    | zero =>
      cases j with
      | zero =>
        have hpos : (0 : Nat) = 0 ∧ 0 < (a :: tl).length := ⟨rfl, by simp⟩
        rw [if_pos hpos]
        rfl
      | succ j' =>
        have hneg : ¬((0 : Nat) = j' + 1 ∧ 0 < (a :: tl).length) := by simp
        rw [if_neg hneg]
        rfl
    | succ i' =>
      cases j with
      | zero =>
        have hneg : ¬(i' + 1 = 0 ∧ i' + 1 < (a :: tl).length) := by simp
        rw [if_neg hneg]
        rfl
      | succ j' =>
        have h := ih i' j' f
        by_cases hc : i' = j' ∧ i' < tl.length
        · have hc2 : i' + 1 = j' + 1 ∧ i' + 1 < (a :: tl).length := by
            simp only [List.length_cons]
            omega
          rw [if_pos hc2]
          rw [if_pos hc] at h
          exact h
        · have hc2 : ¬(i' + 1 = j' + 1 ∧ i' + 1 < (a :: tl).length) := by
            simp only [List.length_cons]
            omega
          rw [if_neg hc2]
          rw [if_neg hc] at h
          exact h

theorem length_setFrame (st : Store) (i : Nat) (f : Frame) :
    (setFrame st i f).length = st.length := List.length_set st i f

theorem length_defineE (st : Store) (e : Nat) (n : String) (v : LiteralValue) :
    (defineE st e n v).length = st.length := length_setFrame st e _

theorem getFrame_defineE_enclosing (st : Store) (e j : Nat) (n : String) (v : LiteralValue) :
    (getFrame (defineE st e n v) j).enclosing = (getFrame st j).enclosing := by
  unfold defineE
  rw [getFrame_set]
  split_ifs with hc
  · obtain ⟨rfl, _⟩ := hc
    rfl
  · rfl

theorem assign_global_preserves {st : Store} {e : Nat} {n : String} {v : LiteralValue}
    {st' : Store} (h : assign_global st e n v = some st') :
    (∀ j, (getFrame st' j).enclosing = (getFrame st j).enclosing)
    ∧ st'.length = st.length := by
  unfold assign_global at h
  cases hg : globalOf (st.length + 1) st e with
  | none =>
    rw [hg] at h
    simp at h
  | some g =>
    rw [hg] at h
    by_cases hk : (List.lookup n (getFrame st g).bindings).isSome = true
    · simp [hk] at h
      subst h
      exact ⟨fun j => getFrame_defineE_enclosing st g j n v, length_defineE st g n v⟩
    · simp [hk] at h

theorem getFrame_append_length (st : Store) (f : Frame) :
    getFrame (st ++ [f]) st.length = f := by
  induction st with
  | nil => rfl
  | cons a tl ih => exact ih

/-- C3: executing a Block statement creates a fresh child frame whose
enclosing link is the current environment, runs the inner statements with
that child as the current environment, and restores the previous
environment as current before returning: on inner success execution
continues with the parent environment current, and on inner failure the
same error message is propagated only after the parent environment has been
restored. -/
theorem block_scope_discipline (n : Nat) (s : Interpreter) (ss : List Stmt) :
    getFrame (s.store ++ [⟨[], some s.environment⟩]) s.store.length
      = ⟨[], some s.environment⟩
    ∧ (∀ t rest,
      interpret n ⟨s.specials, s.store.length, s.store ++ [⟨[], some s.environment⟩]⟩ ss
        = .ok t →
      interpret (n + 1) s (.Block ss :: rest)
        = interpret n ⟨t.specials, s.environment, t.store⟩ rest)
    ∧ (∀ m t rest,
      interpret n ⟨s.specials, s.store.length, s.store ++ [⟨[], some s.environment⟩]⟩ ss
        = .err m t →
      interpret (n + 1) s (.Block ss :: rest)
        = .err m ⟨t.specials, s.environment, t.store⟩) := by
  refine ⟨getFrame_append_length s.store _, ?_, ?_⟩
  · intro t rest h
    simp only [interpret, enclose]
    rw [h]
  · intro m t rest h
    simp only [interpret, enclose]
    rw [h]

/-- C3 witness: a concrete block whose inner statement errs (an undeclared
variable read): the error is propagated with the parent environment
restored; and a concrete block that succeeds continues with the parent
environment. -/
theorem block_scope_discipline_witness :
    interpret 3 Interpreter.new [.Block [.Expression (.Variable "nope")]]
      = .err "Variable nope has not been declared"
          ⟨[], 0, [emptyFrame, ⟨[], some 0⟩]⟩
    ∧ interpret 3 Interpreter.new [.Block [.Var "x" (.Literal (.Number 1))]]
      = .ok ⟨[], 0, [emptyFrame, ⟨[("x", .Number 1)], some 0⟩]⟩ := by
  constructor
  · have h := (block_scope_discipline 2 Interpreter.new
      [.Expression (.Variable "nope")]).2.2 "Variable nope has not been declared"
      ⟨[], 1, [emptyFrame, ⟨[], some 0⟩]⟩ [] rfl
    exact h
  · have h := (block_scope_discipline 2 Interpreter.new
      [.Var "x" (.Literal (.Number 1))]).2.1
      ⟨[], 1, [emptyFrame, ⟨[("x", .Number 1)], some 0⟩]⟩ [] rfl
    exact h

/-- C4: when the superclass expression of a Class statement evaluates to a
value that is not a class, statement execution fails with the type-error
message naming the runtime type of the offending value (and the state at
the early return is the unchanged starting state); when it evaluates to a
class value, execution proceeds into class construction (classCont, the
embedding of the Class arm after the check). -/
theorem class_superclass_check (n : Nat) (s : Interpreter) (name : String)
    (methods : List Stmt) (e : Expr) (v : LiteralValue) (rest : List Stmt)
    (hv : evaluate e s.store s.environment = .ok v) :
    (isClassV v = false →
      interpret (n + 1) s (.Class name methods (some e) :: rest)
        = .err (red ("Superclass must be a class, not " ++ to_type v)) s)
    ∧ (isClassV v = true →
      interpret (n + 1) s (.Class name methods (some e) :: rest)
        = classCont (interpret n) s name methods (some v) rest) := by
  constructor
  · intro hnc
    simp [interpret, hv, hnc]
  · intro hc
    simp [interpret, hv, hc]

/-- C4 witness: extending the number 1 fails with the type error naming
Number; extending a concrete class value proceeds into construction. -/
theorem class_superclass_check_witness :
    interpret 3 Interpreter.new [.Class "C" [] (some (.Literal (.Number 1)))]
      = .err (red "Superclass must be a class, not Number") Interpreter.new
    ∧ interpret 3 Interpreter.new
        [.Class "C" [] (some (.Literal (.JekoClass "B" [] none)))]
      = classCont (interpret 2) Interpreter.new "C" []
          (some (.JekoClass "B" [] none)) [] := by
  constructor
  · exact (class_superclass_check 2 Interpreter.new "C" []
      (.Literal (.Number 1)) (.Number 1) [] rfl).1 rfl
  · exact (class_superclass_check 2 Interpreter.new "C" []
      (.Literal (.JekoClass "B" [] none)) (.JekoClass "B" [] none) [] rfl).2 rfl

/-- C10: when the superclass expression evaluates to a non-class value, the
Class statement returns the error with the starting state untouched: the
same specials, the same current environment handle and the very same frame
heap, so the placeholder nil binding was not created and no method scope
was entered. -/
theorem class_bad_superclass_preserves_state (n : Nat) (s : Interpreter) (name : String)
    (methods : List Stmt) (e : Expr) (v : LiteralValue) (rest : List Stmt)
    (hv : evaluate e s.store s.environment = .ok v) (hnc : isClassV v = false) :
    ∃ m, interpret (n + 1) s (.Class name methods (some e) :: rest) = .err m s :=
  ⟨red ("Superclass must be a class, not " ++ to_type v), by simp [interpret, hv, hnc]⟩

/-- C10 witness: at a concrete nested state, the failing Class statement
returns with the state exactly as it started. -/
theorem class_bad_superclass_preserves_state_witness :
    ∃ m, interpret 3 ⟨[], 1, [emptyFrame, ⟨[], some 0⟩]⟩
      [.Class "C" [] (some (.Literal (.StringValue "s")))]
      = .err m ⟨[], 1, [emptyFrame, ⟨[], some 0⟩]⟩ :=
  class_bad_superclass_preserves_state 2 ⟨[], 1, [emptyFrame, ⟨[], some 0⟩]⟩
    "C" [] (.Literal (.StringValue "s")) (.StringValue "s") [] rfl rfl

/-- C8: a ReturnStmt evaluates its optional value (Nil when absent), stores
the result in the interpreter-wide specials map under the key return, and
execution continues with the following sibling statements of the same
statement list (the signal slot is not unwound by the recursion). -/
theorem return_stmt_signal (n : Nat) (s : Interpreter) (e : Expr) (v : LiteralValue)
    (rest : List Stmt) (hv : evaluate e s.store s.environment = .ok v) :
    interpret (n + 1) s (.ReturnStmt (some e) :: rest)
      = interpret n ⟨upsert "return" v s.specials, s.environment, s.store⟩ rest
    ∧ interpret (n + 1) s (.ReturnStmt none :: rest)
      = interpret n ⟨upsert "return" LiteralValue.Nil s.specials, s.environment, s.store⟩ rest
    ∧ List.lookup "return" (upsert "return" v s.specials) = some v := by
  refine ⟨?_, ?_, lookup_upsert_self _ _ _⟩
  · simp [interpret, hv]
  · simp [interpret]

/-- C8 witness: a return of 7 followed by a sibling variable declaration:
the sibling executes (x gets bound) and the signal slot holds 7. -/
theorem return_stmt_signal_witness :
    interpret 3 Interpreter.new
      [.ReturnStmt (some (.Literal (.Number 7))), .Var "x" (.Literal (.Number 2))]
      = interpret 2 ⟨upsert "return" (.Number 7) [], 0, [emptyFrame]⟩
          [.Var "x" (.Literal (.Number 2))]
    ∧ interpret 3 Interpreter.new
      [.ReturnStmt (some (.Literal (.Number 7))), .Var "x" (.Literal (.Number 2))]
      = .ok ⟨[("return", .Number 7)], 0, [⟨[("x", .Number 2)], none⟩]⟩
    ∧ List.lookup "return" (upsert "return" (LiteralValue.Number 7) []) = some (.Number 7) := by
  refine ⟨?_, ?_, ?_⟩
  · exact (return_stmt_signal 2 Interpreter.new (.Literal (.Number 7)) (.Number 7)
      [.Var "x" (.Literal (.Number 2))] rfl).1
  · rfl
  · exact (return_stmt_signal 2 Interpreter.new (.Literal (.Number 7)) (.Number 7)
      [.Var "x" (.Literal (.Number 2))] rfl).2.2

end Interp

namespace Interp

theorem classCont_cases (recurse : Interpreter → List Stmt → RunResult)
    (s : Interpreter) (name : String) (methods : List Stmt)
    (sv : Option LiteralValue) (rest : List Stmt) :
    ∀ res, classCont recurse s name methods sv rest = res →
      res = .fatal nonFunctionMemberMsg
      ∨ (∃ st3, res = .err (red ("Class definition failed for " ++ name))
          ⟨s.specials, (defineE s.store s.environment name .Nil).length, st3⟩)
      ∨ (∃ st4, res = recurse ⟨s.specials, s.environment, st4⟩ rest) := by
  intro res h
  simp only [classCont, enclose] at h
  cases hbm : buildMethods (defineE s.store s.environment name LiteralValue.Nil).length
      methods [] with
  | none =>
    rw [hbm] at h
    exact Or.inl h.symm
  | some mm =>
    rw [hbm] at h
    simp only at h
    cases sv with
    | none =>
      cases hag : assign_global
          (defineE s.store s.environment name LiteralValue.Nil ++ [⟨[], some s.environment⟩])
          (defineE s.store s.environment name LiteralValue.Nil).length name
          (LiteralValue.JekoClass name mm none) with
      | none =>
        rw [hag] at h
        exact Or.inr (Or.inl ⟨_, h.symm⟩)
      | some st4 =>
        simp only [hag] at h
        have hpar : (getFrame st4
            (defineE s.store s.environment name LiteralValue.Nil).length).enclosing
            = some s.environment := by
          rw [(assign_global_preserves hag).1]
          rw [getFrame_append_length]
        simp only [hpar] at h
        exact Or.inr (Or.inr ⟨st4, h.symm⟩)
    | some sc =>
      cases hag : assign_global
          (defineE (defineE s.store s.environment name LiteralValue.Nil
              ++ [⟨[], some s.environment⟩])
            (defineE s.store s.environment name LiteralValue.Nil).length "super" sc)
          (defineE s.store s.environment name LiteralValue.Nil).length name
          (LiteralValue.JekoClass name mm (some sc)) with
      | none =>
        rw [hag] at h
        exact Or.inr (Or.inl ⟨_, h.symm⟩)
      | some st4 =>
        simp only [hag] at h
        have hpar : (getFrame st4
            (defineE s.store s.environment name LiteralValue.Nil).length).enclosing
            = some s.environment := by
          rw [(assign_global_preserves hag).1]
          rw [getFrame_defineE_enclosing]
          rw [getFrame_append_length]
        simp only [hpar] at h
        exact Or.inr (Or.inr ⟨st4, h.symm⟩)

end Interp

namespace Interp

theorem interpret_env :
    ∀ n : Nat,
      (∀ s ss t, interpret n s ss = .ok t → t.environment = s.environment)
      ∧ (∀ s ss m t, interpret n s ss = .err m t →
        t.environment = s.environment
        ∨ ∃ nm, m = red ("Class definition failed for " ++ nm)) := by
  intro n
  induction n with
  | zero =>
    constructor
    · intro s ss t h
      cases ss with
      | nil =>
        simp [interpret] at h
        subst h
        rfl
      | cons a b => simp [interpret] at h
    · intro s ss m t h
      cases ss with
      | nil => simp [interpret] at h
      | cons a b => simp [interpret] at h
  | succ n ih =>
    obtain ⟨ih_ok, ih_err⟩ := ih
    have main : ∀ s stmt rest res, interpret (n + 1) s (stmt :: rest) = res →
        (∀ t, res = .ok t → t.environment = s.environment)
        ∧ (∀ m t, res = .err m t →
          t.environment = s.environment
          ∨ ∃ nm, m = red ("Class definition failed for " ++ nm)) := by
      intro s stmt rest res h
      have cont : ∀ s1 : Interpreter, interpret n s1 rest = res →
          s1.environment = s.environment →
          (∀ t, res = .ok t → t.environment = s.environment)
          ∧ (∀ m t, res = .err m t →
            t.environment = s.environment
            ∨ ∃ nm, m = red ("Class definition failed for " ++ nm)) := by
        intro s1 hrun hs1
        constructor
        · intro t ht
          exact (ih_ok s1 rest t (hrun.trans ht)).trans hs1
        · intro m t ht
          rcases ih_err s1 rest m t (hrun.trans ht) with he | he
          · exact Or.inl (he.trans hs1)
          · exact Or.inr he
      cases stmt
      case Expression e =>
        simp only [interpret] at h
        cases hev : evaluate e s.store s.environment with
        | ok v =>
          rw [hev] at h
          simp only at h
          exact cont s h rfl
        | error m0 =>
          rw [hev] at h
          simp only at h
          constructor
          · intro t ht
            rw [← h] at ht
            cases ht
          · intro m t ht
            rw [← h] at ht
            cases ht
            exact Or.inl rfl
      case Print e =>
        simp only [interpret] at h
        cases hev : evaluate e s.store s.environment with
        | ok v =>
          rw [hev] at h
          simp only at h
          exact cont s h rfl
        | error m0 =>
          rw [hev] at h
          simp only at h
          constructor
          · intro t ht
            rw [← h] at ht
            cases ht
          · intro m t ht
            rw [← h] at ht
            cases ht
            exact Or.inl rfl
      case Input e =>
        simp only [interpret] at h
        cases hev : evaluate e s.store s.environment with
        | ok v =>
          rw [hev] at h
          simp only at h
          exact cont s h rfl
        | error m0 =>
          rw [hev] at h
          simp only at h
          constructor
          · intro t ht
            rw [← h] at ht
            cases ht
          · intro m t ht
            rw [← h] at ht
            cases ht
            exact Or.inl rfl
      case Errors e =>
        simp only [interpret] at h
        cases hev : evaluate e s.store s.environment with
        | ok v =>
          rw [hev] at h
          simp only at h
          constructor
          · intro t ht
            rw [← h] at ht
            cases ht
          · intro m t ht
            rw [← h] at ht
            cases ht
        | error m0 =>
          rw [hev] at h
          simp only at h
          constructor
          · intro t ht
            rw [← h] at ht
            cases ht
          · intro m t ht
            rw [← h] at ht
            cases ht
            exact Or.inl rfl
      case Var name init0 =>
        simp only [interpret] at h
        cases hev : evaluate init0 s.store s.environment with
        | ok v =>
          rw [hev] at h
          simp only at h
          exact cont _ h rfl
        | error m0 =>
          rw [hev] at h
          simp only at h
          constructor
          · intro t ht
            rw [← h] at ht
            cases ht
          · intro m t ht
            rw [← h] at ht
            cases ht
            exact Or.inl rfl
      case Block statements =>
        simp only [interpret, enclose] at h
        cases hin : interpret n
            ⟨s.specials, s.store.length, s.store ++ [⟨[], some s.environment⟩]⟩
            statements with
        | ok t0 =>
          rw [hin] at h
          simp only at h
          exact cont _ h rfl
        | err m0 t0 =>
          rw [hin] at h
          simp only at h
          constructor
          · intro t ht
            rw [← h] at ht
            cases ht
          · intro m t ht
            rw [← h] at ht
            cases ht
            exact Or.inl rfl
        | exited c =>
          rw [hin] at h
          simp only at h
          constructor
          · intro t ht
            rw [← h] at ht
            cases ht
          · intro m t ht
            rw [← h] at ht
            cases ht
        | fatal m0 =>
          rw [hin] at h
          simp only at h
          constructor
          · intro t ht
            rw [← h] at ht
            cases ht
          · intro m t ht
            rw [← h] at ht
            cases ht
        | noFuel =>
          rw [hin] at h
          simp only at h
          constructor
          · intro t ht
            rw [← h] at ht
            cases ht
          · intro m t ht
            rw [← h] at ht
            cases ht
      case Class name methods superclass =>
        have hcc : ∀ sv, classCont (interpret n) s name methods sv rest = res →
            (∀ t, res = .ok t → t.environment = s.environment)
            ∧ (∀ m t, res = .err m t →
              t.environment = s.environment
              ∨ ∃ nm, m = red ("Class definition failed for " ++ nm)) := by
          intro sv hc
          rcases classCont_cases (interpret n) s name methods sv rest res hc with
            hf | ⟨st3, he⟩ | ⟨st4, hr⟩
          · subst hf
            constructor
            · intro t ht
              cases ht
            · intro m t ht
              cases ht
          · subst he
            constructor
            · intro t ht
              cases ht
            · intro m t ht
              cases ht
              exact Or.inr ⟨name, rfl⟩
          · exact cont _ hr.symm rfl
        cases superclass with
        | none =>
          simp only [interpret] at h
          exact hcc none h
        | some sce =>
          simp only [interpret] at h
          cases hev : evaluate sce s.store s.environment with
          | error m0 =>
            rw [hev] at h
            simp only at h
            constructor
            · intro t ht
              rw [← h] at ht
              cases ht
            · intro m t ht
              rw [← h] at ht
              cases ht
              exact Or.inl rfl
          | ok v =>
            rw [hev] at h
            simp only at h
            by_cases hcv : isClassV v = true
            · rw [if_pos hcv] at h
              exact hcc (some v) h
            · rw [if_neg hcv] at h
              constructor
              · intro t ht
                rw [← h] at ht
                cases ht
              · intro m t ht
                rw [← h] at ht
                cases ht
                exact Or.inl rfl
      case IfStmt predicate thn els =>
        simp only [interpret] at h
        cases hev : evaluate predicate s.store s.environment with
        | error m0 =>
          rw [hev] at h
          simp only at h
          constructor
          · intro t ht
            rw [← h] at ht
            cases ht
          · intro m t ht
            rw [← h] at ht
            cases ht
            exact Or.inl rfl
        | ok tv =>
          rw [hev] at h
          simp only at h
          have branch : ∀ b : Stmt, (match interpret n s [b] with
              | .ok t => interpret n t rest
              | other => other) = res →
              (∀ t, res = .ok t → t.environment = s.environment)
              ∧ (∀ m t, res = .err m t →
                t.environment = s.environment
                ∨ ∃ nm, m = red ("Class definition failed for " ++ nm)) := by
            intro b hb
            cases hinner : interpret n s [b] with
            | ok t0 =>
              rw [hinner] at hb
              simp only at hb
              have henv0 := ih_ok s [b] t0 hinner
              constructor
              · intro t ht
                exact (ih_ok t0 rest t (hb.trans ht)).trans henv0
              · intro m t ht
                rcases ih_err t0 rest m t (hb.trans ht) with he | he
                · exact Or.inl (he.trans henv0)
                · exact Or.inr he
            | err m0 t0 =>
              rw [hinner] at hb
              simp only at hb
              constructor
              · intro t ht
                rw [← hb] at ht
                cases ht
              · intro m t ht
                rw [← hb] at ht
                cases ht
                exact ih_err s [b] m0 t0 hinner
            | exited c =>
              rw [hinner] at hb
              simp only at hb
              constructor
              · intro t ht
                rw [← hb] at ht
                cases ht
              · intro m t ht
                rw [← hb] at ht
                cases ht
            | fatal m0 =>
              rw [hinner] at hb
              simp only at hb
              constructor
              · intro t ht
                rw [← hb] at ht
                cases ht
              · intro m t ht
                rw [← hb] at ht
                cases ht
            | noFuel =>
              rw [hinner] at hb
              simp only at hb
              constructor
              · intro t ht
                rw [← hb] at ht
                cases ht
              · intro m t ht
                rw [← hb] at ht
                cases ht
          by_cases htv : isTruthyTrue tv = true
          · rw [if_pos htv] at h
            exact branch thn h
          · rw [if_neg htv] at h
            cases els with
            | some e2 =>
              simp only at h
              exact branch e2 h
            | none =>
              simp only at h
              exact cont s h rfl
      case IfShortStmt predicate thn els =>
        simp only [interpret] at h
        cases hev : evaluate predicate s.store s.environment with
        | error m0 =>
          rw [hev] at h
          simp only at h
          constructor
          · intro t ht
            rw [← h] at ht
            cases ht
          · intro m t ht
            rw [← h] at ht
            cases ht
            exact Or.inl rfl
        | ok tv =>
          rw [hev] at h
          simp only at h
          have branch : ∀ b : Stmt, (match interpret n s [b] with
              | .ok t => interpret n t rest
              | other => other) = res →
              (∀ t, res = .ok t → t.environment = s.environment)
              ∧ (∀ m t, res = .err m t →
                t.environment = s.environment
                ∨ ∃ nm, m = red ("Class definition failed for " ++ nm)) := by
            intro b hb
            cases hinner : interpret n s [b] with
            | ok t0 =>
              rw [hinner] at hb
              simp only at hb
              have henv0 := ih_ok s [b] t0 hinner
              constructor
              · intro t ht
                exact (ih_ok t0 rest t (hb.trans ht)).trans henv0
              · intro m t ht
                rcases ih_err t0 rest m t (hb.trans ht) with he | he
                · exact Or.inl (he.trans henv0)
                · exact Or.inr he
            | err m0 t0 =>
              rw [hinner] at hb
              simp only at hb
              constructor
              · intro t ht
                rw [← hb] at ht
                cases ht
              · intro m t ht
                rw [← hb] at ht
                cases ht
                exact ih_err s [b] m0 t0 hinner
            | exited c =>
              rw [hinner] at hb
              simp only at hb
              constructor
              · intro t ht
                rw [← hb] at ht
                cases ht
              · intro m t ht
                rw [← hb] at ht
                cases ht
            | fatal m0 =>
              rw [hinner] at hb
              simp only at hb
              constructor
              · intro t ht
                rw [← hb] at ht
                cases ht
              · intro m t ht
                rw [← hb] at ht
                cases ht
            | noFuel =>
              rw [hinner] at hb
              simp only at hb
              constructor
              · intro t ht
                rw [← hb] at ht
                cases ht
              · intro m t ht
                rw [← hb] at ht
                cases ht
          by_cases htv : isTruthyTrue tv = true
          · rw [if_pos htv] at h
            exact branch thn h
          · rw [if_neg htv] at h
            cases els with
            | some e2 =>
              simp only at h
              exact branch e2 h
            | none =>
              simp only at h
              exact cont s h rfl
      case WhileStmt condition body =>
        simp only [interpret] at h
        cases hev : evaluate condition s.store s.environment with
        | error m0 =>
          rw [hev] at h
          simp only at h
          constructor
          · intro t ht
            rw [← h] at ht
            cases ht
          · intro m t ht
            rw [← h] at ht
            cases ht
            exact Or.inl rfl
        | ok flag =>
          rw [hev] at h
          simp only at h
          by_cases htv : isTruthyTrue flag = true
          · rw [if_pos htv] at h
            cases hinner : interpret n s [body] with
            | ok t0 =>
              rw [hinner] at h
              simp only at h
              have henv0 := ih_ok s [body] t0 hinner
              constructor
              · intro t ht
                exact (ih_ok t0 _ t (h.trans ht)).trans henv0
              · intro m t ht
                rcases ih_err t0 _ m t (h.trans ht) with he | he
                · exact Or.inl (he.trans henv0)
                · exact Or.inr he
            | err m0 t0 =>
              rw [hinner] at h
              simp only at h
              constructor
              · intro t ht
                rw [← h] at ht
                cases ht
              · intro m t ht
                rw [← h] at ht
                cases ht
                exact ih_err s [body] m0 t0 hinner
            | exited c =>
              rw [hinner] at h
              simp only at h
              constructor
              · intro t ht
                rw [← h] at ht
                cases ht
              · intro m t ht
                rw [← h] at ht
                cases ht
            | fatal m0 =>
              rw [hinner] at h
              simp only at h
              constructor
              · intro t ht
                rw [← h] at ht
                cases ht
              · intro m t ht
                rw [← h] at ht
                cases ht
            | noFuel =>
              rw [hinner] at h
              simp only at h
              constructor
              · intro t ht
                rw [← h] at ht
                cases ht
              · intro m t ht
                rw [← h] at ht
                cases ht
          · rw [if_neg htv] at h
            exact cont s h rfl
      case Function name params body =>
        simp only [interpret, make_function] at h
        exact cont _ h rfl
      case CmdFunction name cmd =>
        simp only [interpret] at h
        exact cont _ h rfl
      case ReturnStmt value =>
        cases value with
        | none =>
          simp only [interpret] at h
          exact cont _ h rfl
        | some e =>
          simp only [interpret] at h
          cases hev : evaluate e s.store s.environment with
          | ok v =>
            rw [hev] at h
            simp only at h
            exact cont _ h rfl
          | error m0 =>
            rw [hev] at h
            simp only at h
            constructor
            · intro t ht
              rw [← h] at ht
              cases ht
            · intro m t ht
              rw [← h] at ht
              cases ht
              exact Or.inl rfl
    constructor
    · intro s ss t h
      cases ss with
      | nil =>
        simp [interpret] at h
        subst h
        rfl
      | cons stmt rest => exact (main s stmt rest _ h).1 t rfl
    · intro s ss m t h
      cases ss with
      | nil => simp [interpret] at h
      | cons stmt rest => exact (main s stmt rest _ h).2 m t rfl

end Interp

namespace Interp

/-- C2 counterexample: executing a Class statement from a child scope (env 1)
whose class name is not bound in the global scope makes assign_global fail;
the error is returned while the current environment is the method scope
(env 2), not the environment (env 1) that was current when the statement
began, so the Class arm does not unwind its scope on this error path. -/
theorem class_rebind_env_counterexample :
    interpret 5 ⟨[], 1, [emptyFrame, ⟨[], some 0⟩]⟩ [.Class "C" [] none]
      = .err (red "Class definition failed for C")
          ⟨[], 2, [emptyFrame, ⟨[("C", .Nil)], some 0⟩, ⟨[], some 1⟩]⟩
    ∧ (2 : Nat) ≠ 1 := by
  exact ⟨rfl, by decide⟩

/-- C2 (amended): whenever executing statements returns a propagated
user-level error, the current environment at the early return equals the
environment that was current at the start - except on the Class arm
class-rebinding (assign_global) failure path, whose error message is the
class-definition-failed message and which returns while the method scope
opened for the class is still current; every other error path, the Class
superclass type error included, preserves the current environment. -/
theorem interpret_error_env (n : Nat) (s : Interpreter) (ss : List Stmt)
    (m : String) (t : Interpreter) (h : interpret n s ss = .err m t) :
    t.environment = s.environment
    ∨ ∃ nm, m = red ("Class definition failed for " ++ nm) :=
  (interpret_env n).2 s ss m t h

/-- C2 witness: a concrete failing expression statement, with the amended
conclusion delivered by the theorem at that input. -/
theorem interpret_error_env_witness :
    interpret 2 Interpreter.new [.Expression (.Variable "nope")]
      = .err "Variable nope has not been declared" Interpreter.new
    ∧ (Interpreter.new.environment = Interpreter.new.environment
      ∨ ∃ nm, "Variable nope has not been declared"
          = red ("Class definition failed for " ++ nm)) :=
  ⟨rfl, interpret_error_env 2 Interpreter.new [.Expression (.Variable "nope")]
    "Variable nope has not been declared" Interpreter.new rfl⟩

/-- Written from the words of the C9 claim, for comparison with the code:
strip only a surrounding pair of quote characters from a token. -/
def stripSurroundingQuotes (s : String) : String :=
  let l := s.toList
  if 2 ≤ l.length ∧ l.head? = some '\"' ∧ l.getLast? = some '\"' then
    String.mk ((l.drop 1).dropLast)
  else s

/-- C9 counterexample: the token with an interior quote shows the command
runner removes every double-quote character (the Rust replace), not only
surrounding ones as the claim words it: under an oracle echoing back what
it receives, the process is handed the argument ab, not the surrounding-
stripped token. -/
theorem cmd_quote_counterexample :
    removeQuotes "a\"b" = "ab"
    ∧ stripSurroundingQuotes "a\"b" = "a\"b"
    ∧ ("ab" : String) ≠ "a\"b"
    ∧ runCmdNative (fun p args => some (String.intercalate " " (p :: args))) "echo a\"b"
      = some (.StringValue "echo ab") := by
  refine ⟨rfl, ?_, by decide, rfl⟩
  have hc : ¬(2 ≤ ("a\"b".toList).length ∧ ("a\"b".toList).head? = some '\"'
      ∧ ("a\"b".toList).getLast? = some '\"') := by decide
  simp only [stripSurroundingQuotes]
  rw [if_neg hc]

/-- C9 (amended): a CmdFunction statement binds under the function name a
native callable of arity zero holding the command string; invoking it with
any argument list splits the command on single space characters, removes
every double-quote character from each token (not only surrounding ones),
uses the first token as the program and the remaining tokens as its
arguments, and returns the captured standard output of the spawned process
decoded as a string value. -/
theorem cmd_function_behavior (n : Nat) (s : Interpreter) (name cmd : String)
    (rest : List Stmt) (os : String → List String → Option String) (out : String)
    (args : List LiteralValue)
    (hos : os (removeQuotes ((cmdSplit cmd).headD ""))
        ((cmdSplit cmd).drop 1 |>.map removeQuotes) = some out) :
    interpret (n + 1) s (.CmdFunction name cmd :: rest)
      = interpret n ⟨s.specials, s.environment,
          defineE s.store s.environment name
            (.Callable (.NativeFunction name 0 (.cmdRunner cmd)))⟩ rest
    ∧ invokeNative os (.cmdRunner cmd) args = some (.StringValue out) := by
  constructor
  · simp [interpret]
  · simp only [invokeNative, runCmdNative]
    rw [hos]

/-- C9 witness: binding and invoking a concrete command ls -a under a
concrete oracle. -/
theorem cmd_function_behavior_witness :
    interpret 2 Interpreter.new [.CmdFunction "list" "ls -a"]
      = interpret 1 ⟨[], 0, defineE [emptyFrame] 0 "list"
          (.Callable (.NativeFunction "list" 0 (.cmdRunner "ls -a")))⟩ []
    ∧ invokeNative
        (fun p args => if p = "ls" ∧ args = ["-a"] then some "file" else none)
        (.cmdRunner "ls -a") [] = some (.StringValue "file") := by
  have h := cmd_function_behavior 1 Interpreter.new "list" "ls -a" []
    (fun p args => if p = "ls" ∧ args = ["-a"] then some "file" else none)
    "file" [] (by decide)
  exact ⟨h.1, h.2⟩

end Interp
